import Mathlib

/-!
Verification of the msgtool ingestion pipeline against its specification.

This file gives a shallow embedding, in Lean 4, of the parts of the source
the frozen claims are about:

* `src/src/msgskill/utils/cache.py` — the TTL cache (`SimpleCache`);
* `src/src/msgskill/utils/github_db_new.py` — the project state store
  (`GitHubProjectDB`: `add_project`, `is_whitelisted`, `mark_as_whitelisted`,
  `_save_database`);
* `src/getaimsg/utils/ai_filter.py` — the batched LLM classifier
  (`classify_titles_batch`, `_classify_single_batch`,
  `_create_default_results`);
* `src/getaimsg/utils/translator.py` — the summary clipping of
  `translate_article_item` and `has_chinese`;
* `src/src/msgskill/tools/github_fetcher.py` — the (kind, language) query
  loop of `fetch_github_trending` with its HTTP-403 handling;
* `src/src/msgskill/output.py` — `_write_json` of the incremental sink.

Conventions used throughout the embedding:

* Python `datetime` instants are abstracted as integers (`Time := Int`);
  `isoformat`/`fromisoformat` round-trips are the identity on this type.
  The one place where the *string-ness* of a serialized time matters —
  `add_project` adds a `timedelta` to the already-`isoformat`-ed `now`,
  a `TypeError` in Python — is modelled explicitly as an error result.
* Python dicts keyed by strings are association lists with first-match
  lookup and in-place replacement, mirroring dict assignment.
* Floats (AI scores, `time.time()` values in the cache) are modelled as `Rat`
  resp. `Int`; none of the claims depends on floating-point rounding.
* External I/O (the LLM HTTP call and its JSON-repair parsing, the GitHub
  search HTTP call, the translation HTTP call) is abstracted as an oracle
  argument: the embedding takes the *outcome* of the call as input and
  models everything the source does with that outcome.
-/

/-! ## Time ----------------------------------------------------------------

Abstract instants.  `time.time()` and `datetime.now()` readings are passed
explicitly to each embedded operation. -/

abbrev Time := Int

/-! ## TTL cache (`src/src/msgskill/utils/cache.py`) ----------------------- -/

/-- `CacheEntry` — a single cache entry with expiration time
(cache.py, lines 10–14). -/
structure CacheEntry (α : Type) where
  value : α
  expiresAt : Time
deriving Repr, DecidableEq

/-- Association-list lookup, mirroring Python `dict.get`. -/
def assocFind (l : List (String × β)) (k : String) : Option β :=
  (l.find? (fun p => p.1 == k)).map (·.2)

/-- Association-list update, mirroring Python `d[k] = v` (replace the
existing binding, else append). -/
def assocSet : List (String × β) → String → β → List (String × β)
  | [], k, v => [(k, v)]
  | (k', v') :: rest, k, v =>
    if k' == k then (k, v) :: rest else (k', v') :: assocSet rest k v

/-- Association-list deletion, mirroring Python `del d[k]`. -/
def assocErase : List (String × β) → String → List (String × β)
  | [], _ => []
  | (k', v') :: rest, k =>
    if k' == k then rest else (k', v') :: assocErase rest k

/-- `SimpleCache` — in-memory cache with TTL support (cache.py, lines 17–26). -/
structure SimpleCache (α : Type) where
  defaultTtl : Int := 300
  cache : List (String × CacheEntry α) := []
deriving Repr, DecidableEq

namespace SimpleCache

/-- `SimpleCache.get` (cache.py, lines 28–47): return the cached value if
present and not expired; an entry with `time.time() > expires_at` is removed
and reported as absent.  `now` is the `time.time()` reading of the call. -/
def get (c : SimpleCache α) (key : String) (now : Time) :
    Option α × SimpleCache α :=
  match assocFind c.cache key with
  | none => (none, c)
  | some entry =>
    if now > entry.expiresAt then
      (none, { c with cache := assocErase c.cache key })
    else
      (some entry.value, c)

/-- `SimpleCache.set` (cache.py, lines 49–60): store `value` under `key`
with `expires_at = time.time() + ttl` (`default_ttl` when `ttl` is `None`). -/
def set (c : SimpleCache α) (key : String) (value : α) (ttl : Option Int)
    (now : Time) : SimpleCache α :=
  let ttl := ttl.getD c.defaultTtl
  { c with cache := assocSet c.cache key ⟨value, now + ttl⟩ }

end SimpleCache

/-! Association-list lemmas shared by the cache and the state store. -/

theorem assocFind_assocSet_self (l : List (String × β)) (k : String) (v : β) :
    assocFind (assocSet l k v) k = some v := by
  induction l with
  | nil => simp [assocFind, assocSet]
  | cons p rest ih =>
    obtain ⟨a, b⟩ := p
    by_cases h : a = k
    · subst h
      simp [assocSet, assocFind, List.find?]
    · have hb : (a == k) = false := by simpa using h
      simpa [assocSet, hb, assocFind, List.find?] using ih

theorem assocFind_assocSet_ne (l : List (String × β)) (k k' : String) (v : β)
    (h : k' ≠ k) : assocFind (assocSet l k v) k' = assocFind l k' := by
  have hkk' : (k == k') = false := by
    simp only [beq_eq_false_iff_ne, ne_eq]
    exact fun hc => h hc.symm
  induction l with
  | nil => simp [assocFind, assocSet, List.find?, hkk']
  | cons p rest ih =>
    obtain ⟨a, b⟩ := p
    by_cases ha : a = k
    · subst ha
      simp [assocSet, assocFind, List.find?, hkk']
    · have hb : (a == k) = false := by simpa using ha
      by_cases ha' : a = k'
      · subst ha'
        simp [assocSet, hb, assocFind, List.find?]
      · have hb' : (a == k') = false := by simpa using ha'
        simpa [assocSet, hb, assocFind, List.find?, hb'] using ih

theorem assocFind_assocErase_self (l : List (String × β)) (k : String)
    (hnd : (l.map (·.1)).Nodup) : assocFind (assocErase l k) k = none := by
  induction l with
  | nil => simp [assocFind, assocErase]
  | cons p rest ih =>
    obtain ⟨a, b⟩ := p
    simp only [List.map_cons, List.nodup_cons] at hnd
    by_cases ha : a = k
    · subst ha
      simp only [assocErase, beq_self_eq_true, if_true]
      -- the erased key no longer occurs among the remaining keys
      have hnone : List.find? (fun p => p.1 == a) rest = none := by
        apply List.find?_eq_none.mpr
        intro q hq hbe
        have hq1 : q.1 = a := by simpa using hbe
        exact hnd.1 (hq1 ▸ List.mem_map_of_mem (·.1) hq)
      simp [assocFind, hnone]
    · have hb : (a == k) = false := by simpa using ha
      simpa [assocErase, hb, assocFind, List.find?] using ih hnd.2

theorem mem_keys_assocSet (l : List (String × β)) (k x : String) (v : β)
    (hx : x ∈ (assocSet l k v).map (·.1)) : x = k ∨ x ∈ l.map (·.1) := by
  induction l with
  | nil => simpa [assocSet] using hx
  | cons p rest ih =>
    obtain ⟨a, b⟩ := p
    by_cases ha : a = k
    · subst ha
      simp only [assocSet, beq_self_eq_true, if_true] at hx
      simp only [List.map_cons, List.mem_cons] at hx ⊢
      tauto
    · have hb : (a == k) = false := by simpa using ha
      simp only [assocSet, hb, Bool.false_eq_true, if_neg, not_false_iff,
        List.map_cons, List.mem_cons] at hx ⊢
      rcases hx with hx | hx
      · tauto
      · rcases ih hx with h | h <;> tauto

theorem assocSet_keys_nodup (l : List (String × β)) (k : String) (v : β)
    (hnd : (l.map (·.1)).Nodup) : ((assocSet l k v).map (·.1)).Nodup := by
  induction l with
  | nil => simp [assocSet]
  | cons p rest ih =>
    obtain ⟨a, b⟩ := p
    simp only [List.map_cons, List.nodup_cons] at hnd
    by_cases ha : a = k
    · subst ha
      simp only [assocSet, beq_self_eq_true, if_true, List.map_cons, List.nodup_cons]
      exact ⟨hnd.1, hnd.2⟩
    · have hb : (a == k) = false := by simpa using ha
      simp only [assocSet, hb, Bool.false_eq_true, if_neg, not_false_iff,
        List.map_cons, List.nodup_cons]
      refine ⟨fun hmem => ?_, ih hnd.2⟩
      rcases mem_keys_assocSet rest k a v hmem with h | h
      · exact ha h
      · exact hnd.1 h

/-- C10 — TTL-cache get/set law (`SimpleCache.set`, `SimpleCache.get`,
cache.py lines 28–60).  Immediately after `set key value ttl` at clock
reading `t0`, a `get key` at clock reading `t1` returns the stored value
whenever `t1` is not strictly greater than the stored expiry `t0 + ttl`
(the comparison in `get` is strict, so the exact expiry instant — and
`ttl = 0` within the same clock reading — still hits), and once the clock
exceeds the expiry the same `get` returns `none` and removes the entry. -/
theorem cache_get_after_set {α : Type} (c : SimpleCache α) (key : String)
    (v : α) (ttl : Int) (t0 t1 : Time)
    (hnd : (c.cache.map (·.1)).Nodup) (httl : 0 ≤ ttl) :
    (t1 ≤ t0 + ttl →
      ((c.set key v (some ttl) t0).get key t1).1 = some v) ∧
    (t0 + ttl < t1 →
      ((c.set key v (some ttl) t0).get key t1).1 = none ∧
      assocFind ((c.set key v (some ttl) t0).get key t1).2.cache key = none) := by
  have hfind : assocFind (c.set key v (some ttl) t0).cache key
      = some ⟨v, t0 + ttl⟩ := by
    simp [SimpleCache.set, assocFind_assocSet_self]
  constructor
  · intro h
    simp only [SimpleCache.get, hfind]
    rw [if_neg (show ¬ t1 > t0 + ttl from not_lt.mpr h)]
  · intro h
    simp only [SimpleCache.get, hfind]
    rw [if_pos (show t1 > t0 + ttl from h)]
    refine ⟨rfl, ?_⟩
    exact assocFind_assocErase_self _ key
      (by simpa [SimpleCache.set] using assocSet_keys_nodup c.cache key _ hnd)

/-- Witness for C10: a concrete instance — value 7 stored at clock 5 with
`ttl = 0` is still returned at clock 5, and at clock 6 it is gone and the
entry is removed. -/
theorem cache_get_after_set_witness :
    (((5:Int) ≤ 5 + 0 →
      (((SimpleCache.mk 300 [] : SimpleCache Nat).set "k" 7 (some 0) 5).get
        "k" 5).1 = some 7) ∧
     ((5:Int) + 0 < 5 →
      ((((SimpleCache.mk 300 [] : SimpleCache Nat).set "k" 7 (some 0) 5).get
        "k" 5).1 = none) ∧
      assocFind (((SimpleCache.mk 300 [] : SimpleCache Nat).set "k" 7
        (some 0) 5).get "k" 5).2.cache "k" = none)) ∧
    ((5:Int) + 0 < 6 →
      ((((SimpleCache.mk 300 [] : SimpleCache Nat).set "k" 7 (some 0) 5).get
        "k" 6).1 = none) ∧
      assocFind (((SimpleCache.mk 300 [] : SimpleCache Nat).set "k" 7
        (some 0) 5).get "k" 6).2.cache "k" = none) :=
  ⟨cache_get_after_set (SimpleCache.mk 300 []) "k" 7 0 5 5 (by simp) (by omega),
   (cache_get_after_set (SimpleCache.mk 300 []) "k" 7 0 5 6 (by simp)
     (by omega)).2⟩

/-! ## Project state store (`src/src/msgskill/utils/github_db_new.py`) ------

Timestamps stored in records (`crawled_at`, `last_screened_at`, `last_seen`,
`whitelisted_until`) are abstract instants (`Time`); `isoformat` /
`fromisoformat` round-trips are the identity on them.  What cannot be
abstracted away is the *type confusion* in `add_project`: line 217 binds
`now = datetime.now().isoformat()` — a `str` — and line 246 then evaluates
`(now + timedelta(days=30)).isoformat()`, which raises
`TypeError: can only concatenate str (not "datetime.timedelta") to str`.
The embedding therefore returns `Except PyError _` and reports this branch
as `.error .typeError`. -/

/-- A Python runtime error surfaced by an embedded operation. -/
inductive PyError where
  | typeError
deriving Repr, DecidableEq

/-- The fields of a GitHub repo dict that `add_project`,
`_generate_project_id` and `is_whitelisted` read.  `repoId` and `fullName`
model `str(repo.get("id", ""))` / `repo.get("full_name", "")` (empty string
when absent); `addedAt` models `repo.get("added_at")` (absent ⇒ `None`). -/
structure Repo where
  repoId : String := ""
  fullName : String := ""
  name : Option String := none
  description : Option String := none
  htmlUrl : String := ""
  stargazersCount : Nat := 0
  language : Option String := none
  topics : List String := []
  createdAt : Option String := none
  updatedAt : Option String := none
  trendType : Option String := none
  languageQuery : Option String := none
  addedAt : Option Time := none
deriving Repr, DecidableEq

/-- A stored project record — the dict `add_project` writes
(github_db_new.py, lines 220–251).  Every record written by this code has
all of these keys; `whitelisted_until` is `none` when the key is absent or
holds `None`. -/
structure Project where
  repoId : String := ""
  fullName : String := ""
  name : Option String := none
  description : Option String := none
  htmlUrl : String := ""
  stargazersCount : Nat := 0
  language : Option String := none
  topics : List String := []
  createdAt : Option String := none
  updatedAt : Option String := none
  trendType : Option String := none
  languageQuery : Option String := none
  status : String := "crawled"
  aiScore : Rat := 0
  aiReason : String := ""
  crawledAt : Time := 0
  lastScreenedAt : Option Time := none
  lastSeen : Time := 0
  whitelistedUntil : Option Time := none
deriving Repr, DecidableEq

/-- The in-memory dict `self.projects` plus the serialized file
`github_projects.json`; `_save_database` copies the former over the latter
(the write itself is modelled separately for the atomicity claim). -/
structure GitHubProjectDB where
  projects : List (String × Project) := []
  disk : List (String × Project) := []
deriving Repr, DecidableEq

/-- `_generate_project_id` (github_db_new.py, lines 76–94): the `html_url`
when non-empty, else `"github_" + str(id)`, else an 8-hex-digit md5 tag of
`full_name`, else an md5 tag of `datetime.now()`.  The truncated md5 hex
digests are abstracted as tagging with the hashed text (collisions of the
8-character digest are not modelled); none of the claims depends on them. -/
def generateProjectId (repo : Repo) (now : Time) : String :=
  if repo.htmlUrl ≠ "" then repo.htmlUrl
  else if repo.repoId ≠ "" then "github_" ++ repo.repoId
  else if repo.fullName ≠ "" then "github_md5_" ++ repo.fullName
  else "github_md5_now_" ++ toString now

/-- `_save_database` (github_db_new.py, lines 68–74) as seen by the store
model: the in-memory dict becomes the file's content. -/
def saveDatabase (db : GitHubProjectDB) : GitHubProjectDB :=
  { db with disk := db.projects }

/-- `status_hierarchy.get(status, 0)` with
`status_hierarchy = {"crawled": 0, "ai_screened": 1, "whitelisted": 2}`
(github_db_new.py, lines 260–262): any other status — `"expired"`
included — compares as 0, i.e. as `crawled`. -/
def statusHierarchy (s : String) : Nat :=
  if s = "crawled" then 0
  else if s = "ai_screened" then 1
  else if s = "whitelisted" then 2
  else 0

/-- The merge of the fresh `project_data` with the existing record
(github_db_new.py, lines 253–270): `crawled_at` is always kept from the
existing record; when the incoming `status` is not strictly higher in
`status_hierarchy`, the existing `status`, `ai_score` and `ai_reason` are
kept, and `whitelisted_until` is kept when truthy.  Note that
`last_screened_at` is *not* restored from the existing record in any
branch. -/
def mergeExisting (status : String) (projectData : Project)
    (existing : Option Project) : Project :=
  match existing with
  | none => projectData
  | some ex =>
    let projectData := { projectData with crawledAt := ex.crawledAt }
    if statusHierarchy status ≤ statusHierarchy ex.status then
      let projectData :=
        { projectData with
          status := ex.status
          aiScore := ex.aiScore
          aiReason := ex.aiReason }
      match ex.whitelistedUntil with
      | some t => { projectData with whitelistedUntil := some t }
      | none => projectData
    else projectData

/-- The fresh `project_data` dict of `add_project`
(github_db_new.py, lines 220–251), before the merge with any existing
record: all metadata comes from the repo dict, `last_screened_at` starts as
`None` and is set to `now` when the incoming status is `"ai_screened"`.
(The `status == "whitelisted"` branch of lines 245–247 never completes —
see `addProject`.) -/
def freshProjectData (repo : Repo) (status : String) (aiScore : Rat)
    (aiReason : String) (now : Time) : Project :=
  let base : Project :=
    { repoId := repo.repoId
      fullName := repo.fullName
      name := repo.name
      description := repo.description
      htmlUrl := repo.htmlUrl
      stargazersCount := repo.stargazersCount
      language := repo.language
      topics := repo.topics
      createdAt := repo.createdAt
      updatedAt := repo.updatedAt
      trendType := repo.trendType
      languageQuery := repo.languageQuery
      status := status
      aiScore := aiScore
      aiReason := aiReason
      crawledAt := repo.addedAt.getD now   -- repo.get("added_at", now)
      lastScreenedAt := none
      lastSeen := now
      whitelistedUntil := none }
  -- line 251: `elif status == "ai_screened": project_data["last_screened_at"] = now`
  if status = "ai_screened" then { base with lastScreenedAt := some now }
  else base

/-- `add_project` (github_db_new.py, lines 203–276).  For incoming status
`"whitelisted"` line 246 evaluates `(now + timedelta(days=30)).isoformat()`
where `now` is the isoformat `str` bound on line 217 — a `TypeError`,
raised before anything is written.  Otherwise the fresh `project_data` is
merged with the existing record under the monotonic status rule and the
store is saved.  Returns the updated store and the project id. -/
def addProject (db : GitHubProjectDB) (repo : Repo) (status : String)
    (aiScore : Rat) (aiReason : String) (now : Time) :
    Except PyError (GitHubProjectDB × String) :=
  let projectId := generateProjectId repo now
  if status = "whitelisted" then
    -- line 246: `(now + timedelta(days=30)).isoformat()` with `now : str`
    .error .typeError
  else
    let projectData :=
      mergeExisting status (freshProjectData repo status aiScore aiReason now)
        (assocFind db.projects projectId)
    let projects' := assocSet db.projects projectId projectData
    .ok (saveDatabase { db with projects := projects' }, projectId)

/-- `mark_as_ai_screened` (github_db_new.py, lines 278–290). -/
def markAsAiScreened (db : GitHubProjectDB) (repo : Repo) (aiScore : Rat)
    (aiReason : String) (now : Time) :
    Except PyError (GitHubProjectDB × String) :=
  addProject db repo "ai_screened" aiScore aiReason now

/-- `mark_as_whitelisted` (github_db_new.py, lines 292–304). -/
def markAsWhitelisted (db : GitHubProjectDB) (repo : Repo) (aiScore : Rat)
    (aiReason : String) (now : Time) :
    Except PyError (GitHubProjectDB × String) :=
  addProject db repo "whitelisted" aiScore aiReason now

/-- The store after an `add_project` call: unchanged when the call raised
(`self.projects` is only assigned on line 272, after the raising line 246). -/
def addProjectState (db : GitHubProjectDB) (repo : Repo) (status : String)
    (aiScore : Rat) (aiReason : String) (now : Time) : GitHubProjectDB :=
  match addProject db repo status aiScore aiReason now with
  | .ok (db', _) => db'
  | .error _ => db

/-- `is_whitelisted` (github_db_new.py, lines 121–159): true only for a
record with status `"whitelisted"` whose `whitelisted_until` parses and is
strictly in the future; an elapsed `whitelisted_until` transitions the
record to `"expired"`, clears `whitelisted_until`, persists, and the call
returns false. -/
def isWhitelisted (db : GitHubProjectDB) (repo : Repo) (now : Time) :
    Bool × GitHubProjectDB :=
  let projectId := generateProjectId repo now
  match assocFind db.projects projectId with
  | none => (false, db)
  | some project =>
    if project.status = "whitelisted" then
      match project.whitelistedUntil with
      | some expiryTime =>
        if now < expiryTime then (true, db)
        else
          let project' :=
            { project with status := "expired", whitelistedUntil := none }
          (false, saveDatabase
            { db with projects := assocSet db.projects projectId project' })
      | none => (false, db)
    else (false, db)

/-! Helper lemmas about the store operations. -/

theorem freshProjectData_status (repo : Repo) (st : String) (sc : Rat)
    (rs : String) (now : Time) :
    (freshProjectData repo st sc rs now).status = st := by
  unfold freshProjectData
  split <;> rfl

theorem freshProjectData_whitelistedUntil (repo : Repo) (st : String)
    (sc : Rat) (rs : String) (now : Time) :
    (freshProjectData repo st sc rs now).whitelistedUntil = none := by
  unfold freshProjectData
  split <;> rfl

theorem freshProjectData_lastScreenedAt (repo : Repo) (st : String)
    (sc : Rat) (rs : String) (now : Time) :
    (freshProjectData repo st sc rs now).lastScreenedAt
      = (if st = "ai_screened" then some now else none) := by
  unfold freshProjectData
  split <;> simp_all

theorem mergeExisting_le (st : String) (pd : Project) (ex : Project)
    (h : statusHierarchy st ≤ statusHierarchy ex.status) :
    (mergeExisting st pd (some ex)).status = ex.status ∧
    (mergeExisting st pd (some ex)).aiScore = ex.aiScore ∧
    (mergeExisting st pd (some ex)).aiReason = ex.aiReason ∧
    (mergeExisting st pd (some ex)).whitelistedUntil
      = (match ex.whitelistedUntil with
         | some t => some t
         | none => pd.whitelistedUntil) ∧
    (mergeExisting st pd (some ex)).lastScreenedAt = pd.lastScreenedAt := by
  simp only [mergeExisting]
  rw [if_pos h]
  cases hw : ex.whitelistedUntil <;> simp [hw]

theorem mergeExisting_gt (st : String) (pd : Project) (ex : Project)
    (h : statusHierarchy ex.status < statusHierarchy st) :
    mergeExisting st pd (some ex) = { pd with crawledAt := ex.crawledAt } := by
  simp only [mergeExisting]
  rw [if_neg (not_le.mpr h)]

theorem addProject_ok (db : GitHubProjectDB) (repo : Repo) (st : String)
    (sc : Rat) (rs : String) (now : Time) (hst : st ≠ "whitelisted") :
    addProject db repo st sc rs now =
      .ok
        (saveDatabase
          { db with
            projects :=
              assocSet db.projects (generateProjectId repo now)
                (mergeExisting st (freshProjectData repo st sc rs now)
                  (assocFind db.projects (generateProjectId repo now))) },
         generateProjectId repo now) := by
  unfold addProject
  rw [if_neg hst]

theorem addProjectState_error (db : GitHubProjectDB) (repo : Repo)
    (sc : Rat) (rs : String) (now : Time) :
    addProjectState db repo "whitelisted" sc rs now = db := by
  unfold addProjectState addProject
  rfl

theorem addProjectState_ok (db : GitHubProjectDB) (repo : Repo) (st : String)
    (sc : Rat) (rs : String) (now : Time) (hst : st ≠ "whitelisted") :
    addProjectState db repo st sc rs now =
      saveDatabase
        { db with
          projects :=
            assocSet db.projects (generateProjectId repo now)
              (mergeExisting st (freshProjectData repo st sc rs now)
                (assocFind db.projects (generateProjectId repo now))) } := by
  unfold addProjectState
  rw [addProject_ok db repo st sc rs now hst]

/-- C3 — upserting with effective status `whitelisted` through promotion
never succeeds: `add_project` (and hence `mark_as_whitelisted`) raises
`TypeError` on line 246 of github_db_new.py, because `now` was already
converted to an isoformat string on line 217 before
`now + timedelta(days=30)` is evaluated.  No store state, repo, score,
reason or clock value avoids the error, so `whitelisted_until` is never
set to `now + 30 days` — contradicting the claimed (and clearly intended)
behaviour. -/
theorem markAsWhitelisted_always_raises (db : GitHubProjectDB) (repo : Repo)
    (sc : Rat) (rs : String) (now : Time) :
    addProject db repo "whitelisted" sc rs now = .error .typeError ∧
    markAsWhitelisted db repo sc rs now = .error .typeError :=
  ⟨rfl, rfl⟩

/-- C2 — status monotonicity of upserts (`add_project`,
github_db_new.py lines 253–276).  Across any upsert — succeeding or
raising — no stored record's status ever decreases under
`status_hierarchy` (`crawled < ai_screened < whitelisted`, with `expired`
and any unknown status comparing as `crawled`); an upsert whose incoming
status is not strictly higher than the existing one keeps the existing
`status`, `ai_score`, `ai_reason` and `whitelisted_until`; and a
succeeding upsert whose incoming status is strictly higher overwrites the
status with the incoming one (in particular an existing `expired` record
is promoted by an incoming `ai_screened`). -/
theorem addProject_status_monotonic (db : GitHubProjectDB) (repo : Repo)
    (st : String) (sc : Rat) (rs : String) (now : Time) :
    (∀ k r, assocFind db.projects k = some r →
      ∃ r', assocFind (addProjectState db repo st sc rs now).projects k
          = some r' ∧
        statusHierarchy r.status ≤ statusHierarchy r'.status) ∧
    (∀ r, assocFind db.projects (generateProjectId repo now) = some r →
      statusHierarchy st ≤ statusHierarchy r.status →
      ∃ r', assocFind (addProjectState db repo st sc rs now).projects
          (generateProjectId repo now) = some r' ∧
        r'.status = r.status ∧ r'.aiScore = r.aiScore ∧
        r'.aiReason = r.aiReason ∧
        r'.whitelistedUntil = r.whitelistedUntil) ∧
    (∀ db' pid r, addProject db repo st sc rs now = .ok (db', pid) →
      assocFind db.projects (generateProjectId repo now) = some r →
      statusHierarchy r.status < statusHierarchy st →
      ∃ r', assocFind db'.projects (generateProjectId repo now) = some r' ∧
        r'.status = st) := by
  by_cases hst : st = "whitelisted"
  · subst hst
    refine ⟨?_, ?_, ?_⟩
    · intro k r h
      exact ⟨r, by rwa [addProjectState_error], le_refl _⟩
    · intro r h _
      exact ⟨r, by rwa [addProjectState_error], rfl, rfl, rfl, rfl⟩
    · intro db' pid r hok
      simp [addProject] at hok
  · have hstate := addProjectState_ok db repo st sc rs now hst
    refine ⟨?_, ?_, ?_⟩
    · intro k r h
      by_cases hk : k = generateProjectId repo now
      · subst hk
        rw [hstate]
        simp only [saveDatabase]
        rw [h]
        refine ⟨_, assocFind_assocSet_self _ _ _, ?_⟩
        by_cases hle : statusHierarchy st ≤ statusHierarchy r.status
        · rw [(mergeExisting_le st _ r hle).1]
        · rw [mergeExisting_gt st _ r (not_le.mp hle)]
          have hs : ({ freshProjectData repo st sc rs now with
              crawledAt := r.crawledAt } : Project).status = st :=
            freshProjectData_status repo st sc rs now
          rw [hs]
          exact le_of_lt (not_le.mp hle)
      · rw [hstate]
        simp only [saveDatabase]
        rw [assocFind_assocSet_ne _ _ _ _ hk]
        exact ⟨r, h, le_refl _⟩
    · intro r h hle
      rw [hstate]
      simp only [saveDatabase]
      rw [h]
      obtain ⟨h1, h2, h3, h4, _⟩ :=
        mergeExisting_le st (freshProjectData repo st sc rs now) r hle
      refine ⟨_, assocFind_assocSet_self _ _ _, h1, h2, h3, ?_⟩
      rw [h4, freshProjectData_whitelistedUntil]
      cases r.whitelistedUntil <;> rfl
    · intro db' pid r hok h hlt
      rw [addProject_ok db repo st sc rs now hst] at hok
      obtain ⟨rfl, rfl⟩ :
          saveDatabase
            { db with
              projects :=
                assocSet db.projects (generateProjectId repo now)
                  (mergeExisting st (freshProjectData repo st sc rs now)
                    (assocFind db.projects (generateProjectId repo now))) }
            = db' ∧ generateProjectId repo now = pid := by
        simpa using hok
      simp only [saveDatabase]
      rw [h]
      rw [mergeExisting_gt st _ r hlt]
      refine ⟨_, assocFind_assocSet_self _ _ _, ?_⟩
      exact freshProjectData_status repo st sc rs now

/-- A repo dict whose `html_url` is `"u"`; its project id is `"u"`. -/
def repoU : Repo := { htmlUrl := "u" }

/-- A stored record in state `ai_screened` with `last_screened_at` set. -/
def recScreened : Project :=
  { htmlUrl := "u", status := "ai_screened", aiScore := 1, aiReason := "x",
    crawledAt := 1, lastScreenedAt := some 3, lastSeen := 3 }

/-- A store holding `recScreened` under key `"u"`. -/
def dbScreened : GitHubProjectDB :=
  { projects := [("u", recScreened)], disk := [("u", recScreened)] }

/-- Witness for C2: a concrete `crawled` upsert onto an `ai_screened`
record keeps the status, score, reason and (absent) whitelist expiry. -/
theorem addProject_status_monotonic_witness :
    ∃ r', assocFind (addProjectState dbScreened repoU "crawled" 0 "" 5).projects
        (generateProjectId repoU 5) = some r' ∧
      r'.status = "ai_screened" ∧ r'.aiScore = 1 ∧ r'.aiReason = "x" ∧
      r'.whitelistedUntil = none := by
  obtain ⟨r', hf, h1, h2, h3, h4⟩ :=
    (addProject_status_monotonic dbScreened repoU "crawled" 0 "" 5).2.1
      recScreened (by decide) (by decide)
  exact ⟨r', hf, h1.trans rfl, h2.trans rfl, h3.trans rfl, h4.trans rfl⟩

/-- C9 counterexample — the claim "an upsert with an incoming status below
`ai_screened` preserves the existing `last_screened_at`" is false, and with
it the invariant "`status = ai_screened` ⇒ `last_screened_at` is set":
upserting `repoU` as `ai_screened` at time 100 stores
`last_screened_at = 100`, but a subsequent `crawled` upsert at time 200
keeps the status `ai_screened` while resetting `last_screened_at` to
`None` (lines 240 and 264–270 of github_db_new.py never restore it). -/
theorem addProject_lastScreenedAt_cex :
    (addProject ⟨[], []⟩ repoU "ai_screened" 1 "r" 100).map
      (fun p => (assocFind p.1.projects "u").map
        (fun q => (q.status, q.lastScreenedAt)))
      = .ok (some ("ai_screened", some 100)) ∧
    ((addProject ⟨[], []⟩ repoU "ai_screened" 1 "r" 100).bind
      (fun p => addProject p.1 repoU "crawled" 0 "" 200)).map
      (fun p => (assocFind p.1.projects "u").map
        (fun q => (q.status, q.lastScreenedAt)))
      = .ok (some ("ai_screened", none)) := by
  constructor <;> rfl

/-- C9 amended — after any *succeeding* `add_project`, the stored record's
`last_screened_at` is `now` exactly when the incoming status is
`"ai_screened"`, and `None` otherwise (it is never restored from the
existing record); `ai_score` and `ai_reason`, by contrast, are preserved
when the incoming status is not strictly higher than the existing one. -/
theorem addProject_lastScreenedAt (db : GitHubProjectDB) (repo : Repo)
    (st : String) (sc : Rat) (rs : String) (now : Time)
    (db' : GitHubProjectDB) (pid : String)
    (hok : addProject db repo st sc rs now = .ok (db', pid)) :
    ∃ r', assocFind db'.projects pid = some r' ∧
      r'.lastScreenedAt = (if st = "ai_screened" then some now else none) ∧
      (∀ r, assocFind db.projects pid = some r →
        statusHierarchy st ≤ statusHierarchy r.status →
        r'.status = r.status ∧ r'.aiScore = r.aiScore ∧
        r'.aiReason = r.aiReason) := by
  by_cases hst : st = "whitelisted"
  · subst hst
    simp [addProject] at hok
  · rw [addProject_ok db repo st sc rs now hst] at hok
    obtain ⟨rfl, rfl⟩ :
        saveDatabase
          { db with
            projects :=
              assocSet db.projects (generateProjectId repo now)
                (mergeExisting st (freshProjectData repo st sc rs now)
                  (assocFind db.projects (generateProjectId repo now))) }
          = db' ∧ generateProjectId repo now = pid := by
      simpa using hok
    refine ⟨mergeExisting st (freshProjectData repo st sc rs now)
        (assocFind db.projects (generateProjectId repo now)),
      by simp only [saveDatabase]; exact assocFind_assocSet_self _ _ _,
      ?_, ?_⟩
    · cases hex : assocFind db.projects (generateProjectId repo now) with
      | none =>
        simp only [mergeExisting]
        exact freshProjectData_lastScreenedAt repo st sc rs now
      | some ex =>
        by_cases hle : statusHierarchy st ≤ statusHierarchy ex.status
        · rw [(mergeExisting_le st _ ex hle).2.2.2.2]
          exact freshProjectData_lastScreenedAt repo st sc rs now
        · rw [mergeExisting_gt st _ ex (not_le.mp hle)]
          exact freshProjectData_lastScreenedAt repo st sc rs now
    · intro r hr hle
      rw [hr]
      obtain ⟨h1, h2, h3, _, _⟩ :=
        mergeExisting_le st (freshProjectData repo st sc rs now) r hle
      exact ⟨h1, h2, h3⟩

/-- Witness for the amended C9: the concrete `crawled` upsert onto the
`ai_screened` record of `dbScreened` keeps status, score and reason but
leaves `last_screened_at = none`. -/
theorem addProject_lastScreenedAt_witness :
    ∃ r', assocFind (addProjectState dbScreened repoU "crawled" 0 "" 5).projects
        "u" = some r' ∧
      r'.lastScreenedAt = none ∧ r'.status = "ai_screened" := by
  obtain ⟨r', hf, hl, hpres⟩ :=
    addProject_lastScreenedAt dbScreened repoU "crawled" 0 "" 5
      (addProjectState dbScreened repoU "crawled" 0 "" 5) "u" (by rfl)
  refine ⟨r', hf, by simpa using hl, ?_⟩
  exact ((hpres recScreened (by decide) (by decide)).1).trans rfl

/-! Case equations for `is_whitelisted`. -/

theorem isWhitelisted_of_none (db : GitHubProjectDB) (repo : Repo) (now : Time)
    (h : assocFind db.projects (generateProjectId repo now) = none) :
    isWhitelisted db repo now = (false, db) := by
  simp only [isWhitelisted]
  rw [h]

theorem isWhitelisted_of_not_whitelisted (db : GitHubProjectDB) (repo : Repo)
    (now : Time) (p : Project)
    (h : assocFind db.projects (generateProjectId repo now) = some p)
    (hs : p.status ≠ "whitelisted") :
    isWhitelisted db repo now = (false, db) := by
  simp only [isWhitelisted]
  rw [h]
  simp [hs]

theorem isWhitelisted_of_no_until (db : GitHubProjectDB) (repo : Repo)
    (now : Time) (p : Project)
    (h : assocFind db.projects (generateProjectId repo now) = some p)
    (hs : p.status = "whitelisted") (hw : p.whitelistedUntil = none) :
    isWhitelisted db repo now = (false, db) := by
  simp only [isWhitelisted]
  rw [h]
  simp [hs, hw]

theorem isWhitelisted_of_future (db : GitHubProjectDB) (repo : Repo)
    (now : Time) (p : Project) (e : Time)
    (h : assocFind db.projects (generateProjectId repo now) = some p)
    (hs : p.status = "whitelisted") (hw : p.whitelistedUntil = some e)
    (hlt : now < e) :
    isWhitelisted db repo now = (true, db) := by
  simp only [isWhitelisted]
  rw [h]
  simp [hs, hw, hlt]

theorem isWhitelisted_of_elapsed (db : GitHubProjectDB) (repo : Repo)
    (now : Time) (p : Project) (e : Time)
    (h : assocFind db.projects (generateProjectId repo now) = some p)
    (hs : p.status = "whitelisted") (hw : p.whitelistedUntil = some e)
    (hge : ¬ now < e) :
    isWhitelisted db repo now =
      (false, saveDatabase
        { db with
          projects :=
            assocSet db.projects (generateProjectId repo now)
              { p with status := "expired", whitelistedUntil := none } }) := by
  simp only [isWhitelisted]
  rw [h]
  simp [hs, hw, hge]

/-- C4 — `is_whitelisted` (github_db_new.py, lines 121–159) returns true
exactly when the record exists with status `"whitelisted"` and a
`whitelisted_until` strictly in the future; and on a whitelisted record
whose `whitelisted_until` has elapsed, the call returns false, rewrites
the record to status `"expired"` with `whitelisted_until` cleared, and
persists the store (`_save_database`: the file mirrors memory). -/
theorem isWhitelisted_spec (db : GitHubProjectDB) (repo : Repo) (now : Time) :
    ((isWhitelisted db repo now).1 = true ↔
      ∃ r t, assocFind db.projects (generateProjectId repo now) = some r ∧
        r.status = "whitelisted" ∧ r.whitelistedUntil = some t ∧ now < t) ∧
    (∀ r t, assocFind db.projects (generateProjectId repo now) = some r →
      r.status = "whitelisted" → r.whitelistedUntil = some t → t ≤ now →
      (isWhitelisted db repo now).1 = false ∧
      assocFind (isWhitelisted db repo now).2.projects
          (generateProjectId repo now)
        = some { r with status := "expired", whitelistedUntil := none } ∧
      (isWhitelisted db repo now).2.disk
        = (isWhitelisted db repo now).2.projects) := by
  cases hf : assocFind db.projects (generateProjectId repo now) with
  | none =>
    rw [isWhitelisted_of_none db repo now hf]
    constructor
    · simp [hf]
    · intro r t hr
      exact absurd hr (by simp)
  | some p =>
    by_cases hs : p.status = "whitelisted"
    · cases hw : p.whitelistedUntil with
      | none =>
        rw [isWhitelisted_of_no_until db repo now p hf hs hw]
        constructor
        · constructor
          · intro hc
            exact absurd hc (by simp)
          · rintro ⟨r, t, hr, _, hrw, _⟩
            cases hr
            rw [hw] at hrw
            exact absurd hrw (by simp)
        · intro r t hr _ hrw _
          cases hr
          rw [hw] at hrw
          exact absurd hrw (by simp)
      | some e =>
        by_cases hlt : now < e
        · rw [isWhitelisted_of_future db repo now p e hf hs hw hlt]
          constructor
          · constructor
            · intro _
              exact ⟨p, e, rfl, hs, hw, hlt⟩
            · intro _
              rfl
          · intro r t hr _ hrw hle
            cases hr
            rw [hw] at hrw
            cases hrw
            exact absurd hlt (not_lt.mpr hle)
        · rw [isWhitelisted_of_elapsed db repo now p e hf hs hw hlt]
          constructor
          · constructor
            · intro hc
              exact absurd hc (by simp)
            · rintro ⟨r, t, hr, _, hrw, hlt'⟩
              cases hr
              rw [hw] at hrw
              cases hrw
              exact absurd hlt' hlt
          · intro r t hr _ hrw _
            cases hr
            refine ⟨rfl, ?_, rfl⟩
            simp only [saveDatabase]
            exact assocFind_assocSet_self _ _ _
    · rw [isWhitelisted_of_not_whitelisted db repo now p hf hs]
      constructor
      · constructor
        · intro hc
          exact absurd hc (by simp)
        · rintro ⟨r, t, hr, hrs, _, _⟩
          cases hr
          exact absurd hrs hs
      · intro r t hr hrs _ _
        cases hr
        exact absurd hrs hs

/-- A stored record whitelisted until time 10. -/
def recWhitelisted : Project :=
  { htmlUrl := "u", status := "whitelisted", aiScore := 1, aiReason := "x",
    crawledAt := 1, lastScreenedAt := some 3, lastSeen := 3,
    whitelistedUntil := some 10 }

/-- A store holding `recWhitelisted` under key `"u"`. -/
def dbWhitelisted : GitHubProjectDB :=
  { projects := [("u", recWhitelisted)], disk := [("u", recWhitelisted)] }

/-- Witness for C4: at clock 5 the record whitelisted-until-10 reads as
whitelisted; at clock 20 the read returns false, the stored record becomes
`expired` with the expiry cleared, and the store is persisted. -/
theorem isWhitelisted_spec_witness :
    (isWhitelisted dbWhitelisted repoU 5).1 = true ∧
    (isWhitelisted dbWhitelisted repoU 20).1 = false ∧
    assocFind (isWhitelisted dbWhitelisted repoU 20).2.projects
        (generateProjectId repoU 20)
      = some { recWhitelisted with
          status := "expired", whitelistedUntil := none } ∧
    (isWhitelisted dbWhitelisted repoU 20).2.disk
      = (isWhitelisted dbWhitelisted repoU 20).2.projects := by
  refine ⟨?_, ?_⟩
  · exact (isWhitelisted_spec dbWhitelisted repoU 5).1.mpr
      ⟨recWhitelisted, 10, by decide, rfl, rfl, by decide⟩
  · exact (isWhitelisted_spec dbWhitelisted repoU 20).2 recWhitelisted 10
      (by decide) rfl rfl (by decide)

/-! ## File writes (`_save_database`, `_write_json`) — atomicity (C8) ------

`GitHubProjectDB._save_database` (github_db_new.py, lines 68–74) and
`OutputManager._write_json` (output.py, lines 280–289) both execute

    with open(target, 'w', encoding='utf-8') as f:
        json.dump(data, f, ...)

`open(target, 'w')` truncates the target file in place; `json.dump` then
streams the serialized data into it.  We model a write as the trace of
file-system operations it performs and interruption as executing only a
prefix of that trace. -/

/-- A primitive file-system operation. -/
inductive FileOp where
  /-- `open(path, 'w')`: create/truncate `path` to empty. -/
  | openTruncate (path : String)
  /-- the completed streaming of `data` into the open file at `path`. -/
  | writeAll (path : String) (data : String)
  /-- `os.rename(src, dst)`. -/
  | rename (src dst : String)
deriving Repr, DecidableEq

/-- Disk contents: path → file content (`none` = no such file). -/
def FileState := String → Option String

/-- Effect of one operation on the disk. -/
def applyOp (fs : FileState) : FileOp → FileState
  | .openTruncate p => fun q => if q = p then some "" else fs q
  | .writeAll p d => fun q => if q = p then some d else fs q
  | .rename src dst =>
    fun q => if q = dst then fs src else if q = src then none else fs q

/-- Effect of a whole trace. -/
def runOps (fs : FileState) (ops : List FileOp) : FileState :=
  ops.foldl applyOp fs

/-- The trace of `_save_database` (github_db_new.py, lines 68–74): open the
target with truncation, then stream the serialized dict into it. -/
def saveDatabaseTrace (target : String) (data : String) : List FileOp :=
  [.openTruncate target, .writeAll target data]

/-- The trace of `_write_json` (output.py, lines 280–289): identical
open-truncate-then-write on the daily sink file. -/
def writeJsonTrace (target : String) (data : String) : List FileOp :=
  [.openTruncate target, .writeAll target data]

/-- The claimed write discipline, verbatim from the spec: write the data to
a temporary file distinct from the target, then rename it over the target
(so the target is only ever touched by the atomic rename). -/
def specAtomicTempRename (tr : List FileOp) (target : String) : Prop :=
  ∃ tmp data, tmp ≠ target ∧ tr = [.writeAll tmp data, .rename tmp target]

/-- C8 counterexample — neither store write is write-temp-plus-rename, and
an interruption is observable: with the project-store file holding `"OLD"`,
executing only the first operation of `_save_database`'s trace (the
`open(..., 'w')` truncation) leaves the file empty — neither the old nor
the new content — and the same holds for `_write_json`. -/
theorem saveDatabase_not_atomic_cex :
    ¬ specAtomicTempRename
        (saveDatabaseTrace "output/github/github_projects.json" "NEW")
        "output/github/github_projects.json" ∧
    ¬ specAtomicTempRename (writeJsonTrace "output/daily/f.json" "NEW")
        "output/daily/f.json" ∧
    runOps (fun _ => some "OLD")
        ((saveDatabaseTrace "output/github/github_projects.json" "NEW").take 1)
        "output/github/github_projects.json" = some "" := by
  refine ⟨?_, ?_, ?_⟩
  · rintro ⟨tmp, data, -, heq⟩
    simp [saveDatabaseTrace] at heq
  · rintro ⟨tmp, data, -, heq⟩
    simp [writeJsonTrace] at heq
  · rfl

/-- C8 amended — both `_save_database` and `_write_json` write the target
file directly: the full trace does leave the new content in place, but the
trace is open-truncate-then-write, so the interruption point after the
truncation leaves a truncated (empty) target file observable on disk —
there is no temporary file and no rename. -/
theorem saveDatabase_write_shape (target data : String) (fs : FileState) :
    runOps fs (saveDatabaseTrace target data) target = some data ∧
    runOps fs ((saveDatabaseTrace target data).take 1) target = some "" ∧
    runOps fs (writeJsonTrace target data) target = some data ∧
    runOps fs ((writeJsonTrace target data).take 1) target = some "" ∧
    ¬ specAtomicTempRename (saveDatabaseTrace target data) target ∧
    ¬ specAtomicTempRename (writeJsonTrace target data) target := by
  refine ⟨?_, ?_, ?_, ?_, ?_, ?_⟩
  · simp [runOps, saveDatabaseTrace, applyOp]
  · simp [runOps, saveDatabaseTrace, applyOp]
  · simp [runOps, writeJsonTrace, applyOp]
  · simp [runOps, writeJsonTrace, applyOp]
  · rintro ⟨tmp, d, -, heq⟩
    simp [saveDatabaseTrace] at heq
  · rintro ⟨tmp, d, -, heq⟩
    simp [writeJsonTrace] at heq

/-! ## LLM classifier (`src/getaimsg/utils/ai_filter.py`) ------------------

The HTTP call and the string-level JSON-repair stages of
`_classify_single_batch` are abstracted as an `LLMResponse` describing the
outcome of one call: either a failure mode (HTTP status ≥ 400, timeout,
transport error, a 2xx body without `choices`, or a body none of the
repair strategies could parse) or the list of JSON objects recovered from
the content — via the strict parse of lines 200–242 (`strictOk`) or via
the regex / line-scan recovery of lines 285–368 (`recovered`).  Every list
of objects is reachable (a well-formed JSON array parses to exactly its
objects), so quantifying over `LLMResponse` covers every possible LLM
response.  Everything the source does downstream of parsing — validation,
filling of missing ids, the count checks, the default results, batching
and the retry loop — is embedded one-to-one. -/

/-- One element of the parsed JSON array.  `id? = none` models an element
that is not a dict or has no `"id"` key (filtered out on line 247); the
other fields model `item.get("score", 0.5)`, `bool(item.get("keep", True))`
and `item.get("reason")`. -/
structure RawItem where
  id? : Option String
  score : Rat := 1/2
  keep : Bool := true
  reason : Option String := none
deriving Repr, DecidableEq

/-- What the repair stages made of the response content. -/
inductive ParseOutcome where
  /-- `json.loads` succeeded (possibly after the close-the-array repair of
  lines 203–242): the parsed array's elements. -/
  | strictOk (items : List RawItem)
  /-- `json.loads` raised and the regex / line-scan strategies of lines
  292–368 recovered these objects. -/
  | recovered (items : List RawItem)
  /-- every repair strategy failed (line 388). -/
  | unparsable
deriving Repr, DecidableEq

/-- Outcome of one `_classify_single_batch` HTTP round-trip. -/
inductive LLMResponse where
  /-- HTTP 2xx with `choices` present; `p` is what parsing made of the
  message content. -/
  | content (p : ParseOutcome)
  /-- HTTP 2xx but no `choices` in the body (line 390). -/
  | noChoices
  /-- HTTP status ≥ 400: `raise_for_status()` raises `HTTPStatusError`
  (lines 176–186). -/
  | httpError (code : Nat)
  /-- `httpx.TimeoutException` (line 410). -/
  | timeout
  /-- `httpx.RequestError` / other transport failure (lines 413–418). -/
  | transportError
deriving Repr, DecidableEq

/-- `TitleClassificationResult` (ai_filter.py, lines 17–22). -/
structure TitleClassificationResult where
  id : String
  score : Rat
  keep : Bool
  reason : Option String
deriving Repr, DecidableEq

/-- A default-kept verdict with the given reason. -/
def defaultResult (reason : String) (id : String) :
    TitleClassificationResult :=
  { id := id, score := 1/2, keep := true, reason := some reason }

/-- `_create_default_results` (ai_filter.py, lines 427–447): one
default-kept verdict per batch element. -/
def createDefaultResults (batch : List (String × String)) :
    List TitleClassificationResult :=
  batch.map (fun p => defaultResult "AI筛选失败，默认保留" p.1)

/-- Lines 245–255 / 316–326 / 357–366: keep the parsed dicts that have an
`"id"` key and convert them, defaulting `score` to 0.5 and `keep` to
`True`. -/
def validateItems (items : List RawItem) :
    List TitleClassificationResult :=
  (items.filter (fun it => it.id?.isSome)).map
    (fun it =>
      { id := it.id?.getD "", score := it.score, keep := it.keep,
        reason := it.reason })

/-- Lines 258–273 / 371–382: append a default-kept verdict for every batch
id not among the validated ids (the validated-id set is computed once). -/
def fillMissing (reason : String) (batch : List (String × String))
    (validated : List TitleClassificationResult) :
    List TitleClassificationResult :=
  let validatedIds := validated.map (·.id)
  validated ++
    (batch.filter (fun p => !(validatedIds.contains p.1))).map
      (fun p => defaultResult reason p.1)

/-- The strict-parse path (ai_filter.py, lines 244–284): validate, fill
missing ids only when fewer verdicts than batch elements were recovered,
and fall back to all-default when the final count still differs. -/
def processStrict (batch : List (String × String))
    (items : List RawItem) : List TitleClassificationResult :=
  let validated := validateItems items
  let validated :=
    if validated.length < batch.length then
      fillMissing "AI筛选结果不完整，默认保留" batch validated
    else validated
  if validated.length = batch.length then validated
  else createDefaultResults batch

/-- The recovery path after a `JSONDecodeError` (ai_filter.py, lines
285–389): when the strategies produced any verdicts, fill the missing ids
unconditionally and accept only an exact count; else all-default. -/
def processRecovered (batch : List (String × String))
    (items : List RawItem) : List TitleClassificationResult :=
  let validated := validateItems items
  if validated.isEmpty then createDefaultResults batch
  else
    let filled := fillMissing "JSON解析部分失败，默认保留" batch validated
    if filled.length = batch.length then filled
    else createDefaultResults batch

/-- `_classify_single_batch` (ai_filter.py, lines 99–424) as seen by its
caller.  Every failure mode is caught *inside* the function (the `except`
blocks on lines 394–424 and the fallbacks on lines 388–392) and converted
to default-kept results, so the function never raises: the result is
always `.ok`.  In particular an HTTP status ≥ 400 makes line 184 raise
`HTTPStatusError` — with the stated intent of reaching the caller's retry
loop — but the `except httpx.HTTPStatusError` handler on line 394 of the
same function catches it and returns defaults. -/
def classifySingleBatch (resp : LLMResponse)
    (batch : List (String × String)) :
    Except PyError (List TitleClassificationResult) :=
  match resp with
  | .content (.strictOk items) => .ok (processStrict batch items)
  | .content (.recovered items) => .ok (processRecovered batch items)
  | .content .unparsable => .ok (createDefaultResults batch)
  | .noChoices => .ok (createDefaultResults batch)
  | .httpError _ => .ok (createDefaultResults batch)
  | .timeout => .ok (createDefaultResults batch)
  | .transportError => .ok (createDefaultResults batch)

/-- The retry loop of `classify_titles_batch` (ai_filter.py, lines 69–86):
`for retry in range(max_retries + 1)` with `max_retries = 2`; a successful
call breaks out, an exception sleeps `(retry + 1) * 2` seconds and retries,
and after the last attempt the batch is answered with defaults.
`attempt` is the index of the current attempt, `remaining` the number of
attempts left after it; the second component of the result counts the LLM
calls actually made. -/
def runRetryLoop (resps : Nat → LLMResponse) (batch : List (String × String)) :
    Nat → Nat → List TitleClassificationResult × Nat
  | attempt, 0 =>
    -- last attempt: an exception here falls to the all-default answer
    match classifySingleBatch (resps attempt) batch with
    | .ok r => (r, attempt + 1)
    | .error _ => (createDefaultResults batch, attempt + 1)
  | attempt, remaining + 1 =>
    -- `try: ...; break` / `except: sleep((retry + 1) * 2); continue`
    match classifySingleBatch (resps attempt) batch with
    | .ok r => (r, attempt + 1)
    | .error _ => runRetryLoop resps batch (attempt + 1) remaining

/-- One batch through the retry loop (`max_retries = 2`). -/
def runBatchWithRetry (resps : Nat → LLMResponse)
    (batch : List (String × String)) :
    List TitleClassificationResult × Nat :=
  runRetryLoop resps batch 0 2

/-- `range(0, len(titles), batch_size)` slicing (ai_filter.py, line 63):
the consecutive chunks of size `n` (`n = 0` would be a Python
`ValueError`; the function is only called with the default 25). -/
def toBatches : Nat → List α → List (List α)
  | _, [] => []
  | 0, _ :: _ => []
  | n + 1, x :: xs =>
    ((x :: xs).take (n + 1)) :: toBatches (n + 1) ((x :: xs).drop (n + 1))
termination_by n l => l.length
decreasing_by
  simp only [List.length_drop, List.length_cons]
  omega

/-- The batch loop of `classify_titles_batch` (ai_filter.py, lines 63–93):
each batch runs through the retry loop (`resps i a` is the response to
attempt `a` on batch `i`) and the results are concatenated
(`results.extend`). -/
def runBatches (resps : Nat → Nat → LLMResponse) :
    Nat → List (List (String × String)) → List TitleClassificationResult
  | _, [] => []
  | i, b :: bs => (runBatchWithRetry (resps i) b).1 ++ runBatches resps (i + 1) bs

/-- `classify_titles_batch` (ai_filter.py, lines 25–96): empty input short
circuit, the disabled-LLM short circuit of lines 46–57, else the batch
loop.  `llmReady` models `llm_config and llm_config.enabled and
llm_config.api_key`. -/
def classifyTitlesBatch (llmReady : Bool) (resps : Nat → Nat → LLMResponse)
    (titles : List (String × String)) (batchSize : Nat := 25) :
    List TitleClassificationResult :=
  if titles.isEmpty then []
  else if ¬ llmReady then
    titles.map (fun p =>
      { id := p.1, score := 1/2, keep := true,
        reason := some "LLM未配置，默认保留" })
  else runBatches resps 0 (toBatches batchSize titles)

/-! Classifier lemmas. -/

theorem classifySingleBatch_never_raises (resp : LLMResponse)
    (batch : List (String × String)) :
    ∃ r, classifySingleBatch resp batch = .ok r := by
  cases resp with
  | content p => cases p <;> exact ⟨_, rfl⟩
  | noChoices => exact ⟨_, rfl⟩
  | httpError c => exact ⟨_, rfl⟩
  | timeout => exact ⟨_, rfl⟩
  | transportError => exact ⟨_, rfl⟩

theorem createDefaultResults_length (batch : List (String × String)) :
    (createDefaultResults batch).length = batch.length := by
  simp [createDefaultResults]

theorem processStrict_length (batch : List (String × String))
    (items : List RawItem) :
    (processStrict batch items).length = batch.length := by
  simp only [processStrict]
  by_cases h1 : (validateItems items).length < batch.length
  · rw [if_pos h1]
    by_cases h2 : (fillMissing "AI筛选结果不完整，默认保留" batch
        (validateItems items)).length = batch.length
    · rw [if_pos h2]
      exact h2
    · rw [if_neg h2]
      exact createDefaultResults_length batch
  · rw [if_neg h1]
    by_cases h2 : (validateItems items).length = batch.length
    · rw [if_pos h2]
      exact h2
    · rw [if_neg h2]
      exact createDefaultResults_length batch

theorem processRecovered_length (batch : List (String × String))
    (items : List RawItem) :
    (processRecovered batch items).length = batch.length := by
  simp only [processRecovered]
  by_cases h0 : (validateItems items).isEmpty = true
  · rw [if_pos h0]
    exact createDefaultResults_length batch
  · rw [if_neg h0]
    by_cases h2 : (fillMissing "JSON解析部分失败，默认保留" batch
        (validateItems items)).length = batch.length
    · rw [if_pos h2]
      exact h2
    · rw [if_neg h2]
      exact createDefaultResults_length batch

theorem classifySingleBatch_ok_length (resp : LLMResponse)
    (batch : List (String × String)) (r : List TitleClassificationResult)
    (hok : classifySingleBatch resp batch = .ok r) :
    r.length = batch.length := by
  cases resp with
  | content p =>
    cases p with
    | strictOk items =>
      cases hok
      exact processStrict_length batch items
    | recovered items =>
      cases hok
      exact processRecovered_length batch items
    | unparsable =>
      cases hok
      exact createDefaultResults_length batch
  | noChoices => cases hok; exact createDefaultResults_length batch
  | httpError c => cases hok; exact createDefaultResults_length batch
  | timeout => cases hok; exact createDefaultResults_length batch
  | transportError => cases hok; exact createDefaultResults_length batch

theorem runRetryLoop_of_ok (resps : Nat → LLMResponse)
    (batch : List (String × String)) (a rem : Nat)
    (r : List TitleClassificationResult)
    (hr : classifySingleBatch (resps a) batch = .ok r) :
    runRetryLoop resps batch a rem = (r, a + 1) := by
  cases rem with
  | zero =>
    simp only [runRetryLoop]
    rw [hr]
  | succ n =>
    simp only [runRetryLoop]
    rw [hr]

theorem runBatchWithRetry_eq (resps : Nat → LLMResponse)
    (batch : List (String × String)) :
    classifySingleBatch (resps 0) batch
      = .ok (runBatchWithRetry resps batch).1 ∧
    (runBatchWithRetry resps batch).2 = 1 := by
  obtain ⟨r, hr⟩ := classifySingleBatch_never_raises (resps 0) batch
  unfold runBatchWithRetry
  rw [runRetryLoop_of_ok resps batch 0 2 r hr]
  exact ⟨hr, rfl⟩

theorem runBatchWithRetry_length (resps : Nat → LLMResponse)
    (batch : List (String × String)) :
    (runBatchWithRetry resps batch).1.length = batch.length :=
  classifySingleBatch_ok_length (resps 0) batch _
    (runBatchWithRetry_eq resps batch).1

theorem toBatches_flatten : ∀ (n : Nat) (l : List α),
    (toBatches (n + 1) l).flatten = l
  | _, [] => by simp [toBatches]
  | n, x :: xs => by
    rw [toBatches]
    rw [List.flatten_cons]
    rw [toBatches_flatten n ((x :: xs).drop (n + 1))]
    exact List.take_append_drop (n + 1) (x :: xs)
termination_by n l => l.length
decreasing_by
  simp only [List.length_drop, List.length_cons]
  omega

theorem runBatches_length (resps : Nat → Nat → LLMResponse) :
    ∀ (i : Nat) (bs : List (List (String × String))),
    (runBatches resps i bs).length = bs.flatten.length
  | _, [] => by simp [runBatches]
  | i, b :: bs => by
    rw [runBatches]
    rw [List.flatten_cons, List.length_append, List.length_append]
    rw [runBatchWithRetry_length (resps i) b]
    rw [runBatches_length resps (i + 1) bs]

/-- Whether the response is one of the failure modes the claim says should
be retried: an HTTP status ≥ 400, a timeout, or a transport error. -/
def isTransportFailure : LLMResponse → Bool
  | .httpError _ => true
  | .timeout => true
  | .transportError => true
  | _ => false

/-- C6 — the retry loop of `classify_titles_batch` (lines 69–86 of
ai_filter.py) never retries: `_classify_single_batch` catches every
transport error, timeout and HTTP ≥ 400 internally (lines 394–424) and
returns default-kept verdicts instead of raising, so exactly one LLM call
is made per batch regardless of the response, and on a failing response
the batch is answered with default-kept verdicts immediately — no second
attempt, no 2 s/4 s backoff.  (The claimed behaviour is the stated intent:
line 183's comment says the exception is raised *for the outer retry
mechanism to catch*.) -/
theorem classifier_never_retries (resps : Nat → LLMResponse)
    (batch : List (String × String)) :
    (runBatchWithRetry resps batch).2 = 1 ∧
    (isTransportFailure (resps 0) = true →
      runBatchWithRetry resps batch = (createDefaultResults batch, 1)) := by
  refine ⟨(runBatchWithRetry_eq resps batch).2, ?_⟩
  intro h
  cases hr : resps 0 with
  | content p => rw [hr] at h; cases h
  | noChoices => rw [hr] at h; cases h
  | httpError c =>
    unfold runBatchWithRetry runRetryLoop
    rw [hr]
    rfl
  | timeout =>
    unfold runBatchWithRetry runRetryLoop
    rw [hr]
    rfl
  | transportError =>
    unfold runBatchWithRetry runRetryLoop
    rw [hr]
    rfl

/-- Witness for C6: a concrete batch whose first HTTP response is a 500 —
and whose hypothetical second attempt would have parsed cleanly — is
answered with default-kept verdicts after exactly one call. -/
theorem classifier_never_retries_witness :
    runBatchWithRetry
      (fun a => if a = 0 then .httpError 500
        else .content (.strictOk [{ id? := some "1", score := 1 }]))
      [("1", "t")]
      = (createDefaultResults [("1", "t")], 1) :=
  (classifier_never_retries
    (fun a => if a = 0 then .httpError 500
      else .content (.strictOk [{ id? := some "1", score := 1 }]))
    [("1", "t")]).2 (by decide)

/-- The JSON objects the parsing stage recovered from a response. -/
def respItems : LLMResponse → List RawItem
  | .content (.strictOk items) => items
  | .content (.recovered items) => items
  | _ => []

/-- The ids of the recovered objects (in recovery order). -/
def respIds (r : LLMResponse) : List String :=
  (respItems r).filterMap (·.id?)

/-- A response is *well-targeted* for a batch when its recovered ids are
pairwise distinct and all belong to the batch's ids.  The C1 counterexample
shows the claimed id-set equality fails without this condition. -/
def GoodResp (r : LLMResponse) (batch : List (String × String)) : Prop :=
  (respIds r).Nodup ∧ ∀ s ∈ respIds r, s ∈ batch.map (·.1)

theorem validateItems_ids (items : List RawItem) :
    (validateItems items).map (·.id) = items.filterMap (·.id?) := by
  induction items with
  | nil => rfl
  | cons it rest ih =>
    cases h : it.id? with
    | none =>
      simpa [validateItems, List.filter_cons, List.filterMap_cons, h] using ih
    | some s =>
      simpa [validateItems, List.filter_cons, List.filterMap_cons, h] using ih

theorem validateItems_length (items : List RawItem) :
    (validateItems items).length = (items.filterMap (·.id?)).length := by
  rw [← validateItems_ids]
  exact (List.length_map _ _).symm

theorem contains_eq_true_iff (l : List String) (a : String) :
    l.contains a = true ↔ a ∈ l := by
  simp [List.contains, List.elem_iff]

theorem fillMissing_ids (reason : String) (batch : List (String × String))
    (validated : List TitleClassificationResult) :
    (fillMissing reason batch validated).map (·.id)
      = validated.map (·.id)
        ++ (batch.map (·.1)).filter
            (fun x => !((validated.map (·.id)).contains x)) := by
  simp only [fillMissing, List.map_append, List.map_map]
  congr 1
  induction batch with
  | nil => rfl
  | cons p rest ihb =>
    cases hc : (validated.map (·.id)).contains p.1 with
    | true =>
      simp only [List.map_cons, List.filter_cons, hc, Bool.not_true,
        Bool.false_eq_true, if_false]
      exact ihb
    | false =>
      simp only [List.map_cons, List.filter_cons, hc, Bool.not_false, if_true]
      rw [ihb]
      rfl

theorem fillMissing_ids_toFinset (reason : String)
    (batch : List (String × String))
    (validated : List TitleClassificationResult)
    (hsub : ∀ x ∈ validated.map (·.id), x ∈ batch.map (·.1)) :
    ((fillMissing reason batch validated).map (·.id)).toFinset
      = (batch.map (·.1)).toFinset := by
  ext a
  rw [fillMissing_ids]
  simp only [List.toFinset_append, Finset.mem_union, List.mem_toFinset,
    List.mem_filter]
  constructor
  · rintro (h | ⟨h, _⟩)
    · exact hsub a h
    · exact h
  · intro h
    by_cases hv : a ∈ validated.map (·.id)
    · exact Or.inl hv
    · refine Or.inr ⟨h, ?_⟩
      cases hcc : (validated.map (·.id)).contains a with
      | false => rfl
      | true => exact absurd ((contains_eq_true_iff _ _).mp hcc) hv

theorem fillMissing_default_prop (reason : String)
    (batch : List (String × String))
    (validated : List TitleClassificationResult)
    (v : TitleClassificationResult)
    (hv : v ∈ fillMissing reason batch validated) :
    v ∈ validated ∨ (v.keep = true ∧ v.score = 1/2) := by
  simp only [fillMissing, List.mem_append] at hv
  rcases hv with h | h
  · exact Or.inl h
  · right
    obtain ⟨p, _, rfl⟩ := List.mem_map.mp h
    exact ⟨rfl, rfl⟩

theorem createDefaultResults_ids (batch : List (String × String)) :
    (createDefaultResults batch).map (·.id) = batch.map (·.1) := by
  simp [createDefaultResults, List.map_map, defaultResult]

theorem createDefaultResults_prop (batch : List (String × String))
    (v : TitleClassificationResult) (hv : v ∈ createDefaultResults batch) :
    v.keep = true ∧ v.score = 1/2 := by
  obtain ⟨p, _, rfl⟩ := List.mem_map.mp hv
  exact ⟨rfl, rfl⟩

theorem processStrict_good (batch : List (String × String))
    (items : List RawItem)
    (hnd : (items.filterMap (·.id?)).Nodup)
    (hsub : ∀ x ∈ items.filterMap (·.id?), x ∈ batch.map (·.1)) :
    ((processStrict batch items).map (·.id)).toFinset
        = (batch.map (·.1)).toFinset ∧
    ∀ v ∈ processStrict batch items, v.id ∉ items.filterMap (·.id?) →
      v.keep = true ∧ v.score = 1/2 := by
  have hids := validateItems_ids items
  have hsub' : ∀ x ∈ (validateItems items).map (·.id), x ∈ batch.map (·.1) := by
    rw [hids]; exact hsub
  simp only [processStrict]
  by_cases h1 : (validateItems items).length < batch.length
  · rw [if_pos h1]
    by_cases h2 : (fillMissing "AI筛选结果不完整，默认保留" batch
        (validateItems items)).length = batch.length
    · rw [if_pos h2]
      refine ⟨fillMissing_ids_toFinset _ _ _ hsub', ?_⟩
      intro v hv hnotin
      rcases fillMissing_default_prop _ _ _ v hv with hmem | hdef
      · exact absurd (hids ▸ List.mem_map_of_mem (·.id) hmem) hnotin
      · exact hdef
    · rw [if_neg h2]
      refine ⟨by rw [createDefaultResults_ids], ?_⟩
      intro v hv _
      exact createDefaultResults_prop batch v hv
  · rw [if_neg h1]
    by_cases h2 : (validateItems items).length = batch.length
    · rw [if_pos h2]
      constructor
      · -- the recovered ids are distinct, lie in the batch ids, and are as
        -- many as the batch elements, so the two id sets coincide
        have hndv : ((validateItems items).map (·.id)).Nodup := by
          rw [hids]; exact hnd
        have hsubF : ((validateItems items).map (·.id)).toFinset
            ⊆ (batch.map (·.1)).toFinset := by
          intro a ha
          exact List.mem_toFinset.mpr (hsub' a (List.mem_toFinset.mp ha))
        apply Finset.eq_of_subset_of_card_le hsubF
        calc (batch.map (·.1)).toFinset.card
            ≤ (batch.map (·.1)).length := List.toFinset_card_le _
          _ = batch.length := List.length_map _ _
          _ = (validateItems items).length := h2.symm
          _ = ((validateItems items).map (·.id)).length :=
              (List.length_map _ _).symm
          _ = ((validateItems items).map (·.id)).toFinset.card :=
              (List.toFinset_card_of_nodup hndv).symm
      · intro v hv hnotin
        exact absurd (hids ▸ List.mem_map_of_mem (·.id) hv) hnotin
    · rw [if_neg h2]
      refine ⟨by rw [createDefaultResults_ids], ?_⟩
      intro v hv _
      exact createDefaultResults_prop batch v hv

theorem processRecovered_good (batch : List (String × String))
    (items : List RawItem)
    (hsub : ∀ x ∈ items.filterMap (·.id?), x ∈ batch.map (·.1)) :
    ((processRecovered batch items).map (·.id)).toFinset
        = (batch.map (·.1)).toFinset ∧
    ∀ v ∈ processRecovered batch items, v.id ∉ items.filterMap (·.id?) →
      v.keep = true ∧ v.score = 1/2 := by
  have hids := validateItems_ids items
  have hsub' : ∀ x ∈ (validateItems items).map (·.id), x ∈ batch.map (·.1) := by
    rw [hids]; exact hsub
  simp only [processRecovered]
  by_cases h0 : (validateItems items).isEmpty = true
  · rw [if_pos h0]
    refine ⟨by rw [createDefaultResults_ids], ?_⟩
    intro v hv _
    exact createDefaultResults_prop batch v hv
  · rw [if_neg h0]
    by_cases h2 : (fillMissing "JSON解析部分失败，默认保留" batch
        (validateItems items)).length = batch.length
    · rw [if_pos h2]
      refine ⟨fillMissing_ids_toFinset _ _ _ hsub', ?_⟩
      intro v hv hnotin
      rcases fillMissing_default_prop _ _ _ v hv with hmem | hdef
      · exact absurd (hids ▸ List.mem_map_of_mem (·.id) hmem) hnotin
      · exact hdef
    · rw [if_neg h2]
      refine ⟨by rw [createDefaultResults_ids], ?_⟩
      intro v hv _
      exact createDefaultResults_prop batch v hv

theorem classifySingleBatch_good (resp : LLMResponse)
    (batch : List (String × String)) (r : List TitleClassificationResult)
    (hok : classifySingleBatch resp batch = .ok r)
    (hg : GoodResp resp batch) :
    (r.map (·.id)).toFinset = (batch.map (·.1)).toFinset ∧
    ∀ v ∈ r, v.id ∉ respIds resp → v.keep = true ∧ v.score = 1/2 := by
  obtain ⟨hnd, hsub⟩ := hg
  cases resp with
  | content p =>
    cases p with
    | strictOk items =>
      cases hok
      exact processStrict_good batch items hnd hsub
    | recovered items =>
      cases hok
      exact processRecovered_good batch items hsub
    | unparsable =>
      cases hok
      exact ⟨by rw [createDefaultResults_ids],
        fun v hv _ => createDefaultResults_prop batch v hv⟩
  | noChoices =>
    cases hok
    exact ⟨by rw [createDefaultResults_ids],
      fun v hv _ => createDefaultResults_prop batch v hv⟩
  | httpError c =>
    cases hok
    exact ⟨by rw [createDefaultResults_ids],
      fun v hv _ => createDefaultResults_prop batch v hv⟩
  | timeout =>
    cases hok
    exact ⟨by rw [createDefaultResults_ids],
      fun v hv _ => createDefaultResults_prop batch v hv⟩
  | transportError =>
    cases hok
    exact ⟨by rw [createDefaultResults_ids],
      fun v hv _ => createDefaultResults_prop batch v hv⟩

theorem runBatches_good (resps : Nat → Nat → LLMResponse) :
    ∀ (i : Nat) (bs : List (List (String × String))),
    (∀ j b, bs.get? j = some b → GoodResp (resps (i + j) 0) b) →
    ((runBatches resps i bs).map (·.id)).toFinset
        = (bs.flatten.map (·.1)).toFinset ∧
    ∀ v ∈ runBatches resps i bs,
      (∀ j, v.id ∉ respIds (resps j 0)) → v.keep = true ∧ v.score = 1/2 := by
  intro i bs
  induction bs generalizing i with
  | nil =>
    intro _
    exact ⟨by simp [runBatches], by intro v hv; simp [runBatches] at hv⟩
  | cons b bs ih =>
    intro hgood
    have hgb : GoodResp (resps i 0) b := by
      have := hgood 0 b (by rfl)
      simpa using this
    have hok := (runBatchWithRetry_eq (resps i) b).1
    obtain ⟨hfin, hdef⟩ :=
      classifySingleBatch_good (resps i 0) b _ hok hgb
    have hgood' : ∀ j b', bs.get? j = some b' →
        GoodResp (resps (i + 1 + j) 0) b' := by
      intro j b' hjb
      have := hgood (j + 1) b' (by simpa using hjb)
      have harith : i + (j + 1) = i + 1 + j := by omega
      rwa [harith] at this
    obtain ⟨ihfin, ihdef⟩ := ih (i + 1) hgood'
    constructor
    · rw [runBatches]
      rw [List.map_append, List.toFinset_append, List.flatten_cons,
        List.map_append, List.toFinset_append, hfin, ihfin]
    · intro v hv hall
      rw [runBatches] at hv
      rcases List.mem_append.mp hv with hv1 | hv2
      · exact hdef v hv1 (hall i)
      · exact ihdef v hv2 hall

/-- C1 counterexample — a syntactically valid LLM response with a
*duplicated* id defeats the claimed id-set equality: on input ids
`["1", "2"]` a parsed array with two objects for id `"1"` yields two
verdicts for `"1"` and none at all (not even a default) for `"2"` — the
count check on line 276 of ai_filter.py passes, so the duplicated list is
returned as is.  The length is still 2, but the id set differs from the
input's. -/
theorem classifyTitlesBatch_idset_cex :
    ((classifyTitlesBatch true
        (fun _ _ => .content (.strictOk
          [{ id? := some "1", score := 9/10 },
           { id? := some "1", score := 8/10 }]))
        [("1", "t1"), ("2", "t2")]).map (·.id)) = ["1", "1"] ∧
    "2" ∉ ((classifyTitlesBatch true
        (fun _ _ => .content (.strictOk
          [{ id? := some "1", score := 9/10 },
           { id? := some "1", score := 8/10 }]))
        [("1", "t1"), ("2", "t2")]).map (·.id)) := by
  have hmain : classifyTitlesBatch true
      (fun _ _ => .content (.strictOk
        [{ id? := some "1", score := 9/10 },
         { id? := some "1", score := 8/10 }]))
      [("1", "t1"), ("2", "t2")]
      = runBatches
        (fun _ _ => .content (.strictOk
          [{ id? := some "1", score := 9/10 },
           { id? := some "1", score := 8/10 }]))
        0 [[("1", "t1"), ("2", "t2")]] := by
    have hb : toBatches 25 [("1", "t1"), ("2", "t2")]
        = [[("1", "t1"), ("2", "t2")]] := by
      simp [toBatches]
    unfold classifyTitlesBatch
    rw [if_neg (by decide), if_neg (by decide), hb]
  rw [hmain]
  constructor
  · rfl
  · decide

/-- C1 (amended) — `classify_titles_batch` (ai_filter.py, lines 25–96)
always returns exactly one verdict per input pair, for *every* possible
response sequence (valid, truncated, malformed, missing, duplicated or
extraneous ids, transport failures) and also with the LLM disabled; and
*when every recovered id is one of the input ids and the recovered ids are
pairwise distinct*, the output id set equals the input id set and every id
for which no verdict was recovered gets a default-kept verdict
(`keep = true`, `score = 0.5`).  The distinctness/membership proviso is
forced by the counterexample `classifyTitlesBatch_idset_cex`: a response
with duplicated (or extraneous) ids passes the count check of line 276 and
is returned with an id set different from the input's. -/
theorem classifyTitlesBatch_shape (resps : Nat → Nat → LLMResponse)
    (titles : List (String × String)) :
    (∀ llmReady, (classifyTitlesBatch llmReady resps titles).length
        = titles.length) ∧
    ((∀ j b, (toBatches 25 titles).get? j = some b →
        GoodResp (resps j 0) b) →
      ((classifyTitlesBatch true resps titles).map (·.id)).toFinset
          = (titles.map (·.1)).toFinset ∧
      ∀ v ∈ classifyTitlesBatch true resps titles,
        (∀ j, v.id ∉ respIds (resps j 0)) →
        v.keep = true ∧ v.score = 1/2) := by
  have hflat : (toBatches 25 titles).flatten = titles :=
    toBatches_flatten 24 titles
  constructor
  · intro llmReady
    by_cases he : titles.isEmpty = true
    · have ht : titles = [] := List.isEmpty_iff.mp he
      subst ht
      simp [classifyTitlesBatch]
    · cases llmReady with
      | false =>
        unfold classifyTitlesBatch
        rw [if_neg he, if_pos (by decide)]
        exact List.length_map _ _
      | true =>
        unfold classifyTitlesBatch
        rw [if_neg he, if_neg (by decide)]
        rw [runBatches_length resps 0 (toBatches 25 titles), hflat]
  · intro hgood
    by_cases he : titles.isEmpty = true
    · have ht : titles = [] := List.isEmpty_iff.mp he
      subst ht
      constructor
      · simp [classifyTitlesBatch]
      · intro v hv
        simp [classifyTitlesBatch] at hv
    · unfold classifyTitlesBatch
      rw [if_neg he, if_neg (by decide)]
      obtain ⟨h1, h2⟩ := runBatches_good resps 0 (toBatches 25 titles)
        (by intro j b hjb
            have := hgood j b hjb
            simpa using this)
      exact ⟨by rw [h1, hflat], h2⟩

/-- Witness for C1: a concrete batch of ids `["1", "2"]` whose response
recovers only a verdict for `"1"` still yields 2 verdicts with id set
`{"1", "2"}`. -/
theorem classifyTitlesBatch_shape_witness :
    (classifyTitlesBatch true
        (fun _ _ => .content (.strictOk
          [{ id? := some "1", score := 9/10, keep := false }]))
        [("1", "t1"), ("2", "t2")]).length = 2 ∧
    ((classifyTitlesBatch true
        (fun _ _ => .content (.strictOk
          [{ id? := some "1", score := 9/10, keep := false }]))
        [("1", "t1"), ("2", "t2")]).map (·.id)).toFinset
      = (([("1", "t1"), ("2", "t2")] : List (String × String)).map
          (·.1)).toFinset := by
  have h := classifyTitlesBatch_shape
    (fun _ _ => .content (.strictOk
      [{ id? := some "1", score := 9/10, keep := false }]))
    [("1", "t1"), ("2", "t2")]
  refine ⟨h.1 true, (h.2 ?_).1⟩
  intro j b hjb
  have hb : toBatches 25 [("1", "t1"), ("2", "t2")]
      = [[("1", "t1"), ("2", "t2")]] := by
    simp [toBatches]
  rw [hb] at hjb
  cases j with
  | zero =>
    cases hjb
    exact ⟨by decide, by decide⟩
  | succ j =>
    simp at hjb

/-! ## Translator (`src/getaimsg/utils/translator.py`) ---------------------

The clipping logic of `translate_article_item` (lines 113–171) operates on
code points (Python `len`/slicing = Lean `String.length`/`List.take` on
`String.data`).  The LLM call of `translate_text` is abstracted as an
oracle `String → String` giving the value `translate_text` returns
(`translate_text` itself catches every exception and returns its input, so
it is total). -/

/-- `has_chinese` (translator.py, lines 12–27): any code point in the CJK
Unified Ideographs block `一`–`鿿`. -/
def hasChinese (text : String) : Bool :=
  text.data.any (fun c => 0x4e00 ≤ c.toNat ∧ c.toNat ≤ 0x9fff)

/-- Python `s[:n]` on code points. -/
def pyTake (n : Nat) (s : String) : String := ⟨s.data.take n⟩

/-- The prefix of `l` before its *last* space, `none` when `l` has no
space — the list-level content of Python `s.rsplit(" ", 1)[0]`. -/
def beforeLastSpace : List Char → Option (List Char)
  | [] => none
  | c :: rest =>
    match beforeLastSpace rest with
    | some p => some (c :: p)
    | none => if c = ' ' then some [] else none

/-- Python `s.rsplit(" ", 1)[0]`: everything before the last space, or the
whole string when it contains none. -/
def pyRsplitHead (s : String) : String :=
  ⟨(beforeLastSpace s.data).getD s.data⟩

/-- The clip expression `s[:n].rsplit(" ", 1)[0] + "..."` used on lines
138, 142 and 169 of translator.py.  Note it *appends* three code points
after cutting at `n` (or keeps all `n` when the prefix has no space). -/
def clipWithEllipsis (n : Nat) (s : String) : String :=
  pyRsplitHead (pyTake n s) ++ "..."

/-- `translate_article_item` (translator.py, lines 113–171).  `oracle`
gives the value `translate_text` returns for a string (the original text
on any failure).  The `asyncio.gather` branch uses the raw returned
values; the single-sided branches apply the `or`-fallback of lines
162/165. -/
def translateArticleItem (oracle : String → String)
    (title summary : String) : String × String :=
  let titleHasChinese := hasChinese title
  let summaryHasChinese := hasChinese summary
  let summary :=
    if summary.length > 350 then clipWithEllipsis 350 summary else summary
  let summary :=
    if summaryHasChinese = true ∧ summary.length > 300 then
      clipWithEllipsis 300 summary
    else summary
  let pair :=
    if titleHasChinese = false ∧ summaryHasChinese = false then
      (oracle title, oracle summary)
    else if titleHasChinese = false then
      (let r := oracle title
       if r = "" then title else r, summary)
    else if summaryHasChinese = false then
      (title,
       let r := oracle summary
       if r = "" then summary else r)
    else (title, summary)
  let translatedSummary :=
    if pair.2.length > 300 then clipWithEllipsis 300 pair.2 else pair.2
  (pair.1, translatedSummary)

/-- The 301-code-point summary of the C5 analysis: one CJK ideograph
followed by 300 `'a'`s — no space anywhere. -/
def cexSummary : String := "中" ++ String.mk (List.replicate 300 'a')

/-- C5 — the returned summary is *not* bounded by 300 code points: for the
301-code-point, space-free summary `cexSummary` (with a CJK title, so no
LLM call is involved and the result is independent of the oracle), every
clip `s[:300].rsplit(" ", 1)[0] + "..."` keeps all 300 code points and
appends three more, and `translate_article_item` returns a summary of
exactly 303 code points — contradicting both the claim and the function's
own docstring "summary保证不超过300字符". -/
theorem beforeLastSpace_of_no_space (l : List Char)
    (h : ∀ c ∈ l, c ≠ ' ') : beforeLastSpace l = none := by
  induction l with
  | nil => rfl
  | cons c rest ih =>
    simp only [beforeLastSpace]
    rw [ih (fun c hc => h c (List.mem_cons_of_mem _ hc))]
    rw [if_neg (h c (List.mem_cons_self _ _))]

theorem pyRsplitHead_of_no_space (s : String) (h : ∀ c ∈ s.data, c ≠ ' ') :
    pyRsplitHead s = s := by
  simp only [pyRsplitHead, beforeLastSpace_of_no_space s.data h, Option.getD]

theorem pyTake_no_space (n : Nat) (s : String) (h : ∀ c ∈ s.data, c ≠ ' ') :
    ∀ c ∈ (pyTake n s).data, c ≠ ' ' := by
  intro c hc
  exact h c (List.take_subset n s.data hc)

theorem clipWithEllipsis_length_of_no_space (n : Nat) (s : String)
    (h : ∀ c ∈ s.data, c ≠ ' ') :
    (clipWithEllipsis n s).length = min n s.length + 3 := by
  rw [clipWithEllipsis, pyRsplitHead_of_no_space _ (pyTake_no_space n s h)]
  rw [String.length_append]
  show (s.data.take n).length + 3 = min n s.length + 3
  rw [List.length_take]
  rfl

theorem clipWithEllipsis_no_space (n : Nat) (s : String)
    (h : ∀ c ∈ s.data, c ≠ ' ') :
    ∀ c ∈ (clipWithEllipsis n s).data, c ≠ ' ' := by
  rw [clipWithEllipsis, pyRsplitHead_of_no_space _ (pyTake_no_space n s h)]
  intro c hc
  rw [String.data_append] at hc
  rcases List.mem_append.mp hc with hc | hc
  · exact pyTake_no_space n s h c hc
  · have : c = '.' := by simpa using hc
    subst this
    decide

theorem cexSummary_data :
    cexSummary.data = '中' :: List.replicate 300 'a' := by
  show (("中" : String) ++ String.mk (List.replicate 300 'a')).data = _
  rw [String.data_append]
  rfl

theorem cexSummary_length : cexSummary.length = 301 := by
  show cexSummary.data.length = 301
  rw [cexSummary_data, List.length_cons, List.length_replicate]

theorem cexSummary_no_space : ∀ c ∈ cexSummary.data, c ≠ ' ' := by
  intro c hc
  rw [cexSummary_data] at hc
  rcases List.mem_cons.mp hc with h1 | h1
  · subst h1
    decide
  · rw [List.eq_of_mem_replicate h1]
    decide

theorem hasChinese_cexSummary : hasChinese cexSummary = true := by
  rw [hasChinese, cexSummary_data, List.any_cons]
  apply Bool.or_eq_true_iff.mpr
  left
  decide

/-- C5 — the returned summary is *not* bounded by 300 code points: for the
301-code-point, space-free summary `cexSummary` (with a CJK title, so no
LLM call is involved and the result is independent of the oracle), every
clip `s[:300].rsplit(" ", 1)[0] + "..."` keeps all 300 code points and
appends three more, and `translate_article_item` returns a summary of
exactly 303 code points — contradicting both the claim and the function's
own docstring "summary保证不超过300字符". -/
theorem translateArticleItem_overlong (oracle : String → String) :
    ((translateArticleItem oracle "中" cexSummary).2).length = 303 ∧
    cexSummary.length = 301 ∧
    ¬ ((translateArticleItem oracle "中" cexSummary).2).length ≤ 300 := by
  have htitle : hasChinese "中" = true := by decide
  have hclip1 : (clipWithEllipsis 300 cexSummary).length = 303 := by
    rw [clipWithEllipsis_length_of_no_space 300 cexSummary cexSummary_no_space,
      cexSummary_length]
    rfl
  have hclip1ns := clipWithEllipsis_no_space 300 cexSummary cexSummary_no_space
  have c1 : (301 > 350) = False := eq_false (by omega)
  have c2 : (301 > 300) = True := eq_true (by omega)
  have c3 : ((true : Bool) = false) = False := eq_false (by simp)
  have c4 : (303 > 300) = True := eq_true (by omega)
  have hmain : (translateArticleItem oracle "中" cexSummary).2
      = clipWithEllipsis 300 (clipWithEllipsis 300 cexSummary) := by
    simp only [translateArticleItem, htitle, hasChinese_cexSummary,
      cexSummary_length, c1, c2, c3, if_false, if_true, eq_self_iff_true,
      true_and, and_true, false_and, and_false, hclip1, c4]
  have hfinal : (translateArticleItem oracle "中" cexSummary).2.length
      = 303 := by
    rw [hmain,
      clipWithEllipsis_length_of_no_space 300 _ hclip1ns, hclip1]
    rfl
  exact ⟨hfinal, cexSummary_length, by rw [hfinal]; omega⟩

/-! ## Code-host adapter query loop
(`src/src/msgskill/tools/github_fetcher.py`, lines 525–619) --------------

`fetch_github_trending` iterates `trend_type` over `trending_types` and,
inside, `lang` over the configured languages; each `(trend_type, lang)`
query is an HTTP GET abstracted as a `QueryResp`.  On HTTP 403 the source
checks `if all_repos:` — *only when some page was already fetched* does it
`break` out of the language loop; with nothing fetched yet it `continue`s
with the next language (lines 576–590).  Every other error `continue`s
(lines 609–619; the `except`-handler 403 `break` on line 613 is
unreachable because the in-line check on line 576 handles every 403
response before `raise_for_status`). -/

/-- A repository dict as returned in a search page (only the field the
loop itself reads). -/
structure GHRepo where
  payload : String := ""
  language : String := ""
deriving Repr, DecidableEq

/-- A repo annotated by lines 600–603: `_trend_type` and `_language`
(`repo.get("language", "").lower() or lang`). -/
structure TaggedRepo where
  repo : GHRepo
  trendType : String
  languageTag : String
deriving Repr, DecidableEq

/-- Outcome of one `(trend_type, lang)` search query. -/
inductive QueryResp where
  | ok (items : List GHRepo)
  | rateLimited
  | fail
deriving Repr, DecidableEq

/-- ASCII lower-casing, modelling Python `str.lower()` on the language
names that occur here (Python's `lower` is Unicode-aware; no claim depends
on non-ASCII case mapping). -/
def pyLowerChar (c : Char) : Char :=
  if 'A' ≤ c ∧ c ≤ 'Z' then Char.ofNat (c.toNat + 32) else c

/-- `s.lower()` on code points. -/
def pyLower (s : String) : String := ⟨s.data.map pyLowerChar⟩

/-- Lines 600–603: annotate one repo of a fetched page
(`repo.get("language", "").lower() or lang`). -/
def tagRepo (trendType lang : String) (r : GHRepo) : TaggedRepo :=
  { repo := r, trendType := trendType,
    languageTag :=
      if pyLower r.language ≠ "" then pyLower r.language else lang }

/-- The inner language loop for one `trend_type` (lines 527–619), carrying
the shared `all_repos` accumulator:  `.ok` pages are appended, a 403 with
a non-empty accumulator `break`s, a 403 with an empty accumulator and
every other failure `continue`. -/
def innerLangLoop (resp : String → String → QueryResp) (trendType : String) :
    List String → List TaggedRepo → List TaggedRepo
  | [], acc => acc
  | lang :: rest, acc =>
    match resp trendType lang with
    | .ok items =>
      innerLangLoop resp trendType rest (acc ++ items.map (tagRepo trendType lang))
    | .rateLimited =>
      if acc.isEmpty then innerLangLoop resp trendType rest acc
      else acc
    | .fail => innerLangLoop resp trendType rest acc

/-- The outer `trend_type` loop (lines 525–619): the accumulator flows
from one kind to the next. -/
def fetchQueryLoop (resp : String → String → QueryResp) :
    List String → List String → List TaggedRepo → List TaggedRepo
  | [], _, acc => acc
  | t :: ts, langs, acc =>
    fetchQueryLoop resp ts langs (innerLangLoop resp t langs acc)

/-- The full multi-dimension fetch of `fetch_github_trending`, starting
from the empty `all_repos` (line 518). -/
def fetchTrendingRepos (resp : String → String → QueryResp)
    (trendingTypes languages : List String) : List TaggedRepo :=
  fetchQueryLoop resp trendingTypes languages []

/-- The behaviour the claim (spec §4.G) describes, stated as code: on
HTTP 403 *always* break out of the inner language loop and continue with
the next trending kind.  This definition follows the spec's words, to be
compared with `innerLangLoop`, which follows the source. -/
def specInnerLangLoop (resp : String → String → QueryResp)
    (trendType : String) :
    List String → List TaggedRepo → List TaggedRepo
  | [], acc => acc
  | lang :: rest, acc =>
    match resp trendType lang with
    | .ok items =>
      specInnerLangLoop resp trendType rest
        (acc ++ items.map (tagRepo trendType lang))
    | .rateLimited => acc
    | .fail => specInnerLangLoop resp trendType rest acc

/-- Outer loop over the spec-described inner loop. -/
def specFetchQueryLoop (resp : String → String → QueryResp) :
    List String → List String → List TaggedRepo → List TaggedRepo
  | [], _, acc => acc
  | t :: ts, langs, acc =>
    specFetchQueryLoop resp ts langs (specInnerLangLoop resp t langs acc)

/-- The spec-described fetch. -/
def specFetchTrendingRepos (resp : String → String → QueryResp)
    (trendingTypes languages : List String) : List TaggedRepo :=
  specFetchQueryLoop resp trendingTypes languages []

/-- The response map of the C7 counterexample: the first query of the only
kind is rate-limited, the second succeeds. -/
def respCex : String → String → QueryResp := fun t l =>
  if t = "pushed" ∧ l = "python" then .rateLimited
  else if t = "pushed" ∧ l = "javascript" then
    .ok [{ payload := "repo1", language := "JavaScript" }]
  else .fail

/-- C7 counterexample — a 403 on the *first* query does not break out of
the inner language loop: with `all_repos` still empty the source
`continue`s to the next language of the same kind (line 590), so the
javascript page is still fetched; under the claimed always-break
behaviour the run would end empty. -/
theorem fetch403_cex :
    fetchTrendingRepos respCex ["pushed"] ["python", "javascript"]
      = [{ repo := { payload := "repo1", language := "JavaScript" },
           trendType := "pushed", languageTag := "javascript" }] ∧
    specFetchTrendingRepos respCex ["pushed"] ["python", "javascript"]
      = [] ∧
    fetchTrendingRepos respCex ["pushed"] ["python", "javascript"]
      ≠ specFetchTrendingRepos respCex ["pushed"] ["python", "javascript"] := by
  refine ⟨?_, ?_, ?_⟩ <;> decide

theorem innerLangLoop_extends (resp : String → String → QueryResp)
    (t : String) :
    ∀ (langs : List String) (acc : List TaggedRepo),
    ∃ more, innerLangLoop resp t langs acc = acc ++ more
  | [], acc => ⟨[], (List.append_nil acc).symm⟩
  | lang :: rest, acc => by
    rw [innerLangLoop]
    cases hr : resp t lang with
    | ok items =>
      obtain ⟨more, hm⟩ :=
        innerLangLoop_extends resp t rest
          (acc ++ items.map (tagRepo t lang))
      refine ⟨items.map (tagRepo t lang) ++ more, ?_⟩
      show innerLangLoop resp t rest (acc ++ items.map (tagRepo t lang))
          = acc ++ (items.map (tagRepo t lang) ++ more)
      rw [hm, List.append_assoc]
    | rateLimited =>
      by_cases he : acc.isEmpty = true
      · obtain ⟨more, hm⟩ := innerLangLoop_extends resp t rest acc
        refine ⟨more, ?_⟩
        show (if acc.isEmpty = true then innerLangLoop resp t rest acc
            else acc) = acc ++ more
        rw [if_pos he, hm]
      · refine ⟨[], ?_⟩
        show (if acc.isEmpty = true then innerLangLoop resp t rest acc
            else acc) = acc ++ []
        rw [if_neg he, List.append_nil]
    | fail =>
      obtain ⟨more, hm⟩ := innerLangLoop_extends resp t rest acc
      refine ⟨more, ?_⟩
      show innerLangLoop resp t rest acc = acc ++ more
      exact hm

theorem fetchQueryLoop_extends (resp : String → String → QueryResp) :
    ∀ (ts langs : List String) (acc : List TaggedRepo),
    ∃ more, fetchQueryLoop resp ts langs acc = acc ++ more
  | [], _, acc => ⟨[], (List.append_nil acc).symm⟩
  | t :: ts, langs, acc => by
    rw [fetchQueryLoop]
    obtain ⟨m1, hm1⟩ := innerLangLoop_extends resp t langs acc
    obtain ⟨m2, hm2⟩ := fetchQueryLoop_extends resp ts langs (acc ++ m1)
    exact ⟨m1 ++ m2, by rw [hm1, hm2, List.append_assoc]⟩

/-- C7 (amended) — the adapter's 403 handling, as the source implements
it: the run is never aborted and already-fetched pages are always kept
(every loop step only appends to `all_repos`); a 403 received while the
accumulator is *non-empty* stops the current kind's language loop and the
run continues with the next kind; a 403 received while the accumulator is
*empty* skips only the current language and continues within the same
kind; and whenever at least one page was fetched before the 403, the final
result is non-empty (the function then reports success with the reduced
count rather than `success=false`, which line 621 reserves for an empty
result). -/
theorem fetch403_behaviour (resp : String → String → QueryResp) :
    (∀ ts langs acc, ∃ more, fetchQueryLoop resp ts langs acc = acc ++ more) ∧
    (∀ t lang rest acc, resp t lang = .rateLimited → acc ≠ [] →
      innerLangLoop resp t (lang :: rest) acc = acc) ∧
    (∀ t ts lang rest acc, resp t lang = .rateLimited → acc ≠ [] →
      fetchQueryLoop resp (t :: ts) (lang :: rest) acc
        = fetchQueryLoop resp ts (lang :: rest) acc) ∧
    (∀ t lang rest, resp t lang = .rateLimited →
      innerLangLoop resp t (lang :: rest) [] = innerLangLoop resp t rest []) ∧
    (∀ ts langs acc, acc ≠ [] → fetchQueryLoop resp ts langs acc ≠ []) := by
  have hbreak : ∀ t lang rest acc, resp t lang = .rateLimited → acc ≠ [] →
      innerLangLoop resp t (lang :: rest) acc = acc := by
    intro t lang rest acc hr hacc
    rw [innerLangLoop, hr]
    show (if acc.isEmpty = true then innerLangLoop resp t rest acc
        else acc) = acc
    rw [if_neg (by simpa [List.isEmpty_iff] using hacc)]
  refine ⟨fetchQueryLoop_extends resp, hbreak, ?_, ?_, ?_⟩
  · intro t ts lang rest acc hr hacc
    rw [fetchQueryLoop, hbreak t lang rest acc hr hacc]
  · intro t lang rest hr
    rw [innerLangLoop, hr]
    show (if ([] : List TaggedRepo).isEmpty = true
        then innerLangLoop resp t rest [] else []) = innerLangLoop resp t rest []
    rw [if_pos (by simp)]
  · intro ts langs acc hacc
    obtain ⟨more, hm⟩ := fetchQueryLoop_extends resp ts langs acc
    rw [hm]
    intro hc
    exact hacc (List.append_eq_nil.mp hc).1

/-- A previously fetched page entry. -/
def seedRepo : TaggedRepo :=
  { repo := { payload := "seed", language := "Python" },
    trendType := "stars", languageTag := "python" }

/-- Witness for the amended C7: with one page already fetched, the 403 on
`("pushed", "python")` under `respCex` ends the `pushed` language loop at
once, keeps the page, and the whole run returns a non-empty result. -/
theorem fetch403_behaviour_witness :
    innerLangLoop respCex "pushed" ["python", "javascript"] [seedRepo]
      = [seedRepo] ∧
    fetchQueryLoop respCex ["pushed"] ["python", "javascript"] [seedRepo]
      = [seedRepo] ∧
    fetchQueryLoop respCex ["pushed"] ["python", "javascript"] [seedRepo]
      ≠ [] := by
  have h := fetch403_behaviour respCex
  refine ⟨h.2.1 "pushed" "python" ["javascript"] [seedRepo] (by decide)
      (by simp), ?_, ?_⟩
  · rw [h.2.2.1 "pushed" [] "python" ["javascript"] [seedRepo] (by decide)
      (by simp)]
    rfl
  · exact h.2.2.2.2 ["pushed"] ["python", "javascript"] [seedRepo] (by simp)
